import Mathlib

/-!
Verification of the symbolic-algebra engine in src/main.py against its
specification.  The Python source is shallowly embedded: the expression tree
becomes a mutual inductive type, the recursive algorithms `simplify` and
`derive` become fuel-indexed functions into an error monad (the fuel models
the unbounded Python recursion; Python exceptions become explicit error
values), and the Python numeric tower (arbitrary-precision int, binary64
float) is modelled bit-exactly: ints as Int, floats as Rat holding the
exact value of the binary64, with every float-producing operation rounded
to nearest, ties to even, by `roundB64`, implicit int-to-float conversion
raising OverflowError when the int does not fit, true division raising
OverflowError when the rounded quotient leaves the float range, and
multiplication, addition and modulo overflowing silently to infinity.
Infinities, the complex values Python produces for a negative base with a
non-integral float exponent, irrational powers, and the libm-computed
powers whose exact result binary64 cannot represent are collapsed into one
untracked constructor `PyNum.inexact`; no computation appearing in the
verified claims reaches it.
-/

namespace Symbolic

set_option maxRecDepth 4000

/-- Errors the embedded program can surface.  `fuelExhausted` is an artifact
of the fuel-indexed embedding (Python recursion is unbounded); the other
four model Python exceptions: ZeroDivisionError, OverflowError (an int too
large for binary64, or an overflowing power), TypeError, and the
`Exception("Derivation not implemented for: ...")` raised at the end of
`derive` (the error the specification calls UnsupportedDerivation). -/
inductive Err where
  | fuelExhausted
  | zeroDivision
  | overflowError
  | typeError
  | unsupportedDerivation : String → Err
deriving DecidableEq

/-- Model of Python numeric values flowing through the program.
`int` is an arbitrary-precision Python int; `float` is a Python float whose
exact rational value the model tracks (all float arithmetic reached by the
claims is exact in binary64); `inexact` stands for any float or complex
result whose exact value is not tracked (irrational powers, complex results
of a negative base under a fractional exponent). -/
inductive PyNum where
  | int : Int → PyNum
  | float : Rat → PyNum
  | inexact
deriving DecidableEq

/-- Embedding of an integer as a rational.  The arithmetic on Rat used
throughout this file is spelled with mkRat and the num and den
projections rather than the library operations, because the library
operations are deliberately irreducible and would block evaluation of the
embedded program inside proofs; each function below computes the standard
field operation. -/
def ratI (n : Int) : Rat := mkRat n 1

/-- Product of two rationals. -/
def ratMul (a b : Rat) : Rat := mkRat (a.num * b.num) (a.den * b.den)

/-- Sum of two rationals. -/
def ratAdd (a b : Rat) : Rat := mkRat (a.num * b.den + b.num * a.den) (a.den * b.den)

/-- Difference of two rationals. -/
def ratSub (a b : Rat) : Rat := mkRat (a.num * b.den - b.num * a.den) (a.den * b.den)

/-- Quotient of two rationals (zero when the divisor is zero; the program
always tests the divisor first). -/
def ratDiv (a b : Rat) : Rat := mkRat (a.num * b.den * b.num.sign) (a.den * b.num.natAbs)

/-- Floor of a rational. -/
def ratFloor (a : Rat) : Int := a.num.fdiv a.den

/-- Natural power of a rational. -/
def ratNPow (a : Rat) (k : Nat) : Rat := mkRat (a.num ^ k) (a.den ^ k)

/-- Reciprocal of a rational (zero for zero). -/
def ratInv (a : Rat) : Rat := mkRat (a.den * a.num.sign) a.num.natAbs

/-- Integer power of a rational. -/
def ratZPow (a : Rat) (n : Int) : Rat :=
  if 0 ≤ n then ratNPow a n.toNat else ratInv (ratNPow a (-n).toNat)

/-- Strict order on rationals, by cross multiplication (spelled out so it
evaluates inside proofs). -/
def ratLt (a b : Rat) : Bool := decide (a.num * b.den < b.num * a.den)

/-- Non-strict order on rationals, by cross multiplication. -/
def ratLe (a b : Rat) : Bool := decide (a.num * b.den ≤ b.num * a.den)

/-- Negation of a rational. -/
def ratNeg (a : Rat) : Rat := mkRat (-a.num) a.den

/-- 2 ^ k computed in 32-bit chunks.  The first argument is fuel (k itself
always suffices); the chunking keeps the evaluation depth near k / 32 so
large powers of two reduce inside proofs without deep recursion. -/
def pow2F : Nat → Nat → Nat
  | 0, _ => 1
  | f+1, k => if k < 32 then 2 ^ k else 4294967296 * pow2F f (k - 32)

/-- 2 ^ k for a natural k. -/
def pow2 (k : Nat) : Nat := pow2F k k

/-- 2 ^ k as a rational, for an integer k of either sign. -/
def ratPow2 (k : Int) : Rat :=
  if 0 ≤ k then ratI (pow2 k.toNat) else mkRat 1 (pow2 (-k).toNat)

/-- Bit length of a natural number, fuelled like `pow2F` (n itself is
always enough fuel), consuming 32 bits per step while the argument is
large. -/
def bitLenF : Nat → Nat → Nat
  | 0, _ => 0
  | f+1, n =>
      if n = 0 then 0
      else if n < 4294967296 then bitLenF f (n / 2) + 1
      else bitLenF f (n / 4294967296) + 32

/-- Bit length of a natural number: 0 for 0, otherwise one more than the
position of the highest set bit. -/
def bitLen (n : Nat) : Nat := bitLenF n n

/-- Floor of the base-2 logarithm of a positive rational: the bit lengths
of numerator and denominator bound it within one, and a single comparison
settles which. -/
def ratFloorLog2 (m : Rat) : Int :=
  let k : Int := (bitLen m.num.natAbs : Int) - (bitLen m.den : Int)
  if ratLe (ratPow2 k) m then k else k - 1

/-- Round a rational to an integer, ties to even (the IEEE 754
round-to-nearest-even rule at integer granularity). -/
def roundHalfEven (x : Rat) : Int :=
  let f := ratFloor x
  let r := ratSub x (ratI f)
  if ratLt r (mkRat 1 2) then f
  else if ratLt (mkRat 1 2) r then f + 1
  else if f % 2 = 0 then f else f + 1

/-- Round a positive rational to the nearest binary64 value (round to
nearest, ties to even): scale the significand to 53 bits - or to the
fixed scale 2^-1074 in the subnormal range - round at integer
granularity, and signal overflow when the rounded value reaches 2^1024
(so a value rounding up to 2^1024 from below overflows, as IEEE 754
prescribes). -/
def roundPosB64 (m : Rat) : Except Err Rat :=
  let E := ratFloorLog2 m
  if E < -1022 then
    .ok (mkRat (roundHalfEven (ratMul m (ratPow2 1074))) (pow2 1074))
  else
    let n := roundHalfEven (ratMul m (ratPow2 (52 - E)))
    let val := ratMul (ratI n) (ratPow2 (E - 52))
    if ratLe (ratPow2 1024) val then .error .overflowError else .ok val

/-- Round a rational to the nearest binary64 value, any sign; the error
case is the overflow to an infinity, which each caller maps to Python's
OverflowError or to the untracked infinity as CPython does for the
operation at hand. -/
def roundB64 (m : Rat) : Except Err Rat :=
  if m = ratI 0 then .ok (ratI 0)
  else if ratLt (ratI 0) m then roundPosB64 m
  else (roundPosB64 (ratNeg m)).map ratNeg

/-- Conversion of a Python int to binary64, the implicit conversion CPython
performs on the int operand of mixed int/float arithmetic: correctly
rounded, raising OverflowError ("int too large to convert to float") when
the rounded magnitude reaches 2^1024. -/
def intToFloat (a : Int) : Except Err Rat := roundB64 (ratI a)

/-- A float produced by an IEEE basic operation from the exact rational
value of its result: the correctly rounded binary64 when it fits, and
otherwise the untracked infinity (float multiplication, addition and
division overflow to inf without raising). -/
def floatOf (exact : Rat) : PyNum :=
  match roundB64 exact with
  | .error _ => .inexact
  | .ok v => .float v

/-- Exact rational value of the binary64 constant math.e:
6121026514868073 / 2^51 (math.e.as_integer_ratio()). -/
def eulerVal : Rat := mkRat 6121026514868073 2251799813685248

/-- Python numeric equality (the == used by Constant.__eq__): ints and
floats compare by value across the two types.  Comparisons against the
untracked `inexact` are modelled as false (never reached by the claims). -/
def eqNum : PyNum → PyNum → Bool
  | .int m, .int n => decide (m = n)
  | .int m, .float q => decide (ratI m = q)
  | .float q, .int m => decide (q = ratI m)
  | .float p, .float q => decide (p = q)
  | _, _ => false

/-- Python multiplication on numbers: int*int stays int and is exact; with
a float operand the int is first converted to binary64 (which can raise
OverflowError), and the product is rounded, overflowing silently to the
untracked infinity. -/
def pyMul : PyNum → PyNum → Except Err PyNum
  | .int a, .int b => .ok (.int (a * b))
  | .int a, .float q => (intToFloat a).map (fun fa => floatOf (ratMul fa q))
  | .float q, .int a => (intToFloat a).map (fun fa => floatOf (ratMul q fa))
  | .float p, .float q => .ok (floatOf (ratMul p q))
  | _, _ => .ok .inexact

/-- Python addition on numbers, typed like `pyMul`. -/
def pyAdd : PyNum → PyNum → Except Err PyNum
  | .int a, .int b => .ok (.int (a + b))
  | .int a, .float q => (intToFloat a).map (fun fa => floatOf (ratAdd fa q))
  | .float q, .int a => (intToFloat a).map (fun fa => floatOf (ratAdd q fa))
  | .float p, .float q => .ok (floatOf (ratAdd p q))
  | _, _ => .ok .inexact

/-- Floored modulo on exact rationals: a - b * floor(a / b), the value
Python float modulo computes (sign follows the divisor). -/
def ratFloorMod (a b : Rat) : Rat := ratSub a (ratMul b (ratI (ratFloor (ratDiv a b))))

/-- Python modulo.  int % int is exact floored integer modulo (Int.fmod
matches the Python sign convention); in the mixed cases the int operand is
converted to binary64 first (so a huge int raises OverflowError even
against a zero divisor, as CPython does), then a zero divisor raises
ZeroDivisionError, then the floored modulo is computed and rounded.  The
untracked `inexact` operands stay untracked. -/
def pyMod (x y : PyNum) : Except Err PyNum :=
  match x, y with
  | .int a, .int b =>
      if b = 0 then .error .zeroDivision else .ok (.int (Int.fmod a b))
  | .int a, .float q => do
      let fa ← intToFloat a
      if q = ratI 0 then .error .zeroDivision
      else .ok (floatOf (ratFloorMod fa q))
  | .float p, .int b => do
      let fb ← intToFloat b
      if fb = ratI 0 then .error .zeroDivision
      else .ok (floatOf (ratFloorMod p fb))
  | .float p, .float q =>
      if q = ratI 0 then .error .zeroDivision
      else .ok (floatOf (ratFloorMod p q))
  | _, _ => .ok .inexact

/-- Python true division (the / operator): always a float.  int / int is
computed by CPython without converting the operands (long_true_divide):
after the zero-divisor check the correctly rounded quotient is returned,
raising OverflowError when it leaves the binary64 range ("integer division
result too large for a float").  The mixed cases convert the int operand
first (possible OverflowError), then check the divisor for zero, then
divide and round, overflowing silently to the untracked infinity. -/
def pyDiv (x y : PyNum) : Except Err PyNum :=
  match x, y with
  | .int a, .int b =>
      if b = 0 then .error .zeroDivision
      else (roundB64 (ratDiv (ratI a) (ratI b))).map .float
  | .int a, .float q => do
      let fa ← intToFloat a
      if q = ratI 0 then .error .zeroDivision
      else .ok (floatOf (ratDiv fa q))
  | .float p, .int b => do
      let fb ← intToFloat b
      if fb = ratI 0 then .error .zeroDivision
      else .ok (floatOf (ratDiv p fb))
  | .float p, .float q =>
      if q = ratI 0 then .error .zeroDivision
      else .ok (floatOf (ratDiv p q))
  | _, _ => .ok .inexact

/-- CPython float_pow on a float base and a float exponent.  A zero base
under a negative exponent raises ZeroDivisionError; an integral exponent
yields the libm power, which raises OverflowError when the result leaves
the float range, is the exact rational power when binary64 represents it,
and is otherwise left untracked (libm's rounding of an inexact power is
not modelled); a non-integral exponent gives an irrational or complex
result the model does not track. -/
def powFloatExp (b q : Rat) : Except Err PyNum :=
  if q.den = 1 then
    if b = ratI 0 ∧ q.num < 0 then .error .zeroDivision
    else
      match roundB64 (ratZPow b q.num) with
      | .error _ => .error .overflowError
      | .ok v => .ok (if v = ratZPow b q.num then .float v else .inexact)
  else .ok .inexact

/-- Python ** on numbers.  int ** nonnegative-int is an exact int; every
other case falls back to CPython float_pow after converting each int
operand to binary64 in operand order (so 0 ** -10^400 raises OverflowError
from converting the exponent, and 0 ** -1 raises ZeroDivisionError inside
float_pow, as CPython does). -/
def pyPow (x y : PyNum) : Except Err PyNum :=
  match x, y with
  | .int a, .int n =>
      if 0 ≤ n then .ok (.int (a ^ n.toNat))
      else do
        let fa ← intToFloat a
        let fn ← intToFloat n
        powFloatExp fa fn
  | .float p, .int n => do
      let fn ← intToFloat n
      powFloatExp p fn
  | .int a, .float q => do
      let fa ← intToFloat a
      powFloatExp fa q
  | .float p, .float q => powFloatExp p q
  | _, _ => .ok .inexact

/-- Left-pad a string with zeros to the given length (used for the
fractional digits of a float rendering). -/
def padZeros (s : String) (k : Nat) : String :=
  String.mk (List.replicate (k - s.length) '0') ++ s

/-- Rendering of a float value, as Python str does for the exactly
representable decimal values the program produces: an integral float
renders with a trailing .0 (str(2.0) is 2.0), a terminating decimal
renders with its minimal digits (str(0.5) is 0.5).  Values without a
terminating decimal expansion cannot equal the exact value of any
binary64 reached by the claims; they get a fallback marker. -/
def floatRepr (q : Rat) : String :=
  if q.den = 1 then toString q.num ++ ".0"
  else match (List.range 64).find? (fun k => (10 ^ k : Nat) % q.den = 0) with
    | some k =>
        let scaled : Int := q.num * (((10 ^ k : Nat) / q.den : Nat) : Int)
        let m : Nat := scaled.natAbs
        let sign : String := if q.num < 0 then "-" else ""
        sign ++ toString (m / 10 ^ k) ++ "." ++ padZeros (toString (m % 10 ^ k)) k
    | none => "nondecimal:" ++ toString q.num ++ "/" ++ toString q.den

/-- Rendering of a Python number by str. -/
def numRepr : PyNum → String
  | .int n => toString n
  | .float q => floatRepr q
  | .inexact => "inexact"

/-- Test whether a numeric value equals the float math.e (the comparison in
Constant.__repr__ and the default Logarithm base test). -/
def isEulerNum : PyNum → Bool
  | .float q => decide (q = eulerVal)
  | _ => false

/-- The closed expression tree of src/main.py: Constant, Variable, Multiply,
Add, Minus, Subtract, Divide, Logarithm (value plus numeric base, default
math.e) and Power.  The value field of the Python Constant class is
dynamically typed (Any), and Minus.simplify in fact stores a whole
expression in it; the embedding therefore splits the one Python class into
two constructors, `Constant` for a numeric value and `ConstantE` for an
expression value.  Everything the source does with isinstance(_, Constant)
treats the two constructors alike. -/
inductive Expression where
  | Constant : PyNum → Expression
  | ConstantE : Expression → Expression
  | Variable : String → Expression
  | Multiply : Expression → Expression → Expression
  | Add : Expression → Expression → Expression
  | Minus : Expression → Expression
  | Subtract : Expression → Expression → Expression
  | Divide : Expression → Expression → Expression
  | Logarithm : Expression → PyNum → Expression
  | Power : Expression → Expression → Expression
deriving DecidableEq

/-- View of the dynamically typed value stored in a Constant object. -/
inductive CVal where
  | num : PyNum → CVal
  | expr : Expression → CVal
deriving DecidableEq

/-- Packs a Constant value back into an expression node (the Constant
constructor call in the source). -/
def mkC : CVal → Expression
  | .num n => .Constant n
  | .expr e => .ConstantE e

/-- Extracts the stored value when the node is a Constant object
(isinstance(node, Constant) plus the .value access). -/
def viewC : Expression → Option CVal
  | .Constant n => some (.num n)
  | .ConstantE e => some (.expr e)
  | _ => none

/-- Test for the Constant variant (isinstance(..., Constant)). -/
def isConstE : Expression → Bool
  | .Constant _ => true
  | .ConstantE _ => true
  | _ => false

/-- Rendering of a Python number by str, as Constant.__repr__ does: e for
the value math.e, the numeric literal otherwise. -/
def numConstRepr (n : PyNum) : String :=
  if isEulerNum n then "e" else numRepr n

/-- The text renderer (the __repr__ methods, which str falls back to):
Constant renders e for the value math.e and str(value) otherwise (an
expression-valued Constant renders its stored expression, which can never
equal the float math.e); Multiply parenthesizes an Add or Subtract
operand, whose rendering is inlined here so the recursion stays
structural; Minus renders with no space before a Constant and one space
otherwise; Logarithm renders ln(v) for the base math.e and
log(v, base) otherwise. -/
def reprE : Expression → String
  | .Constant n => numConstRepr n
  | .ConstantE e => reprE e
  | .Variable s => s
  | .Multiply l r =>
      (match l with
       | .Add a b => "(" ++ reprE a ++ " + " ++ reprE b ++ ")"
       | .Subtract a b => "(" ++ reprE a ++ " - " ++ reprE b ++ ")"
       | l => reprE l)
      ++ " * " ++
      (match r with
       | .Add a b => "(" ++ reprE a ++ " + " ++ reprE b ++ ")"
       | .Subtract a b => "(" ++ reprE a ++ " - " ++ reprE b ++ ")"
       | r => reprE r)
  | .Add l r => reprE l ++ " + " ++ reprE r
  | .Minus v => (if isConstE v then "-" else "- ") ++ reprE v
  | .Subtract l r => reprE l ++ " - " ++ reprE r
  | .Divide p q => reprE p ++ " / " ++ reprE q
  | .Logarithm v b =>
      if isEulerNum b then "ln(" ++ reprE v ++ ")"
      else "log(" ++ reprE v ++ ", " ++ numRepr b ++ ")"
  | .Power b e => reprE b ++ " ** " ++ reprE e

/-- Comparison of an expression against a raw Python number, as evaluated
by the checks left == 0, left == 1 and value == base in the source.  Only
a Constant can equal a number (Constant.__eq__ compares values, recursing
through an expression-valued Constant); every other subclass has a
dataclass-generated __eq__ that returns NotImplemented against a number,
and the reflected numeric comparison is false, so the result is False. -/
def eqExprRawNum : Expression → PyNum → Bool
  | .Constant x, n => eqNum x n
  | .ConstantE e, n => eqExprRawNum e n
  | _, _ => false

/-- Number of constructors in an expression tree (used only to bound the
recursion of the equality test below). -/
def sizeE : Expression → Nat
  | .Constant _ => 1
  | .ConstantE e => 1 + sizeE e
  | .Variable _ => 1
  | .Multiply a b => 1 + sizeE a + sizeE b
  | .Add a b => 1 + sizeE a + sizeE b
  | .Minus a => 1 + sizeE a
  | .Subtract a b => 1 + sizeE a + sizeE b
  | .Divide a b => 1 + sizeE a + sizeE b
  | .Logarithm a _ => 1 + sizeE a
  | .Power a b => 1 + sizeE a + sizeE b

/-- Python == between two expression objects, with an explicit recursion
bound (every recursive call strictly shrinks the combined size of the two
arguments, so the bound chosen by `exprEq` below is never exhausted; the
bound only makes the recursion structurally evident).  Every subclass
except Constant uses the @dataclass-generated __eq__: the same class
compares fields, different classes fall through NotImplemented to False.
Constant defines its own __eq__ comparing the stored value against the
other operand, directly or reflected, which recurses into the stored
expression when the value is expression-valued. -/
def exprEqF : Nat → Expression → Expression → Bool
  | 0, _, _ => false
  | f+1, a, b =>
    match a, b with
    | .Constant x, .Constant y => eqNum x y
    | .Constant x, .ConstantE g => eqExprRawNum g x
    | .Constant _, _ => false
    | .ConstantE e, .Constant y => eqExprRawNum e y
    | .ConstantE e, .ConstantE g => exprEqF f e g
    | .ConstantE e, b => exprEqF f e b
    | _, .Constant _ => false
    | a, .ConstantE g => exprEqF f g a
    | .Variable s, .Variable t => s == t
    | .Multiply a b, .Multiply c d => exprEqF f a c && exprEqF f b d
    | .Add a b, .Add c d => exprEqF f a c && exprEqF f b d
    | .Minus a, .Minus b => exprEqF f a b
    | .Subtract a b, .Subtract c d => exprEqF f a c && exprEqF f b d
    | .Divide a b, .Divide c d => exprEqF f a c && exprEqF f b d
    | .Logarithm a x, .Logarithm b y => exprEqF f a b && eqNum x y
    | .Power a b, .Power c d => exprEqF f a c && exprEqF f b d
    | _, _ => false

/-- Python == between two expression objects (see `exprEqF`). -/
def exprEq (a b : Expression) : Bool := exprEqF (sizeE a + sizeE b) a b

/-- No Minus and no Subtract node occurs anywhere in the tree (including
inside expression-valued Constants). -/
def msFree : Expression → Bool
  | .Constant _ => true
  | .ConstantE e => msFree e
  | .Variable _ => true
  | .Multiply a b => msFree a && msFree b
  | .Add a b => msFree a && msFree b
  | .Minus _ => false
  | .Subtract _ _ => false
  | .Divide a b => msFree a && msFree b
  | .Logarithm a _ => msFree a
  | .Power a b => msFree a && msFree b

/-- Multiplication of two Constant values as Python evaluates x * y on the
dynamically typed value fields: two numbers multiply numerically (which
can raise OverflowError in the mixed int/float cases); when an expression
is involved, operator dispatch reaches Expression.__mul__ or __rmul__,
which coerces the numeric side to a Constant and builds a Multiply node,
so the product is itself an expression. -/
def cvMul : CVal → CVal → Except Err CVal
  | .num x, .num y => (pyMul x y).map .num
  | .num x, .expr e => .ok (.expr (.Multiply (.Constant x) e))
  | .expr e, .num y => .ok (.expr (.Multiply e (.Constant y)))
  | .expr e, .expr g => .ok (.expr (.Multiply e g))

/-- Addition of two Constant values, typed like `cvMul` but building Add
nodes in the expression cases. -/
def cvAdd : CVal → CVal → Except Err CVal
  | .num x, .num y => (pyAdd x y).map .num
  | .num x, .expr e => .ok (.expr (.Add (.Constant x) e))
  | .expr e, .num y => .ok (.expr (.Add e (.Constant y)))
  | .expr e, .expr g => .ok (.expr (.Add e g))

/-- Exponentiation of two Constant values: numeric ** can raise
ZeroDivisionError; an expression operand builds a Power node by operator
dispatch. -/
def cvPow : CVal → CVal → Except Err CVal
  | .num x, .num y => (pyPow x y).map .num
  | .num x, .expr e => .ok (.expr (.Power (.Constant x) e))
  | .expr e, .num y => .ok (.expr (.Power e (.Constant y)))
  | .expr e, .expr g => .ok (.expr (.Power e g))

/-- Modulo of two Constant values: defined on numbers (possibly raising
ZeroDivisionError); an expression operand has no __mod__, so Python raises
TypeError. -/
def cvMod : CVal → CVal → Except Err PyNum
  | .num x, .num y => pyMod x y
  | _, _ => .error .typeError

/-- True division of two Constant values; the expression cases build a
Divide node by operator dispatch (they are unreachable in the program,
which divides values only after a successful modulo). -/
def cvDiv : CVal → CVal → Except Err CVal
  | .num x, .num y => (pyDiv x y).map .num
  | .num x, .expr e => .ok (.expr (.Divide (.Constant x) e))
  | .expr e, .num y => .ok (.expr (.Divide e (.Constant y)))
  | .expr e, .expr g => .ok (.expr (.Divide e g))

/-- Comparison of a Constant value against a raw int (the exponent == 0 and
exponent == 1 tests in Power.simplify). -/
def cvEqInt (v : CVal) (n : Int) : Bool :=
  match v with
  | .num x => eqNum x (.int n)
  | .expr e => eqExprRawNum e (.int n)

/-- Flattening of a product tree into its factors, as
get_multiplication_factors and Multiply.get_factors do: a Multiply
concatenates the factors of its right operand before those of its left
operand (that order is what the source computes), a Power is its own
factor, and any other expression becomes the factor (expr, Constant(1)).
A factor is modelled as the (base, exponent) pair of the Power object the
source builds. -/
def getMF : Expression → List (Expression × Expression)
  | .Multiply l r => getMF r ++ getMF l
  | .Power b e => [(b, e)]
  | e => [(e, .Constant (.int 1))]

/-- One step of the grouping loop: insert a factor into the group list
keyed by the rendered text of its base (groupby stores keys as str(k)),
preserving first-occurrence key order as the Python dict does.  Each group
remembers the base object of its first member (fs[0].base). -/
def insertFactor (acc : List (Expression × List (Expression × Expression)))
    (p : Expression × Expression) :
    List (Expression × List (Expression × Expression)) :=
  let k := reprE p.1
  if acc.any (fun g => reprE g.1 == k) then
    acc.map (fun g => if reprE g.1 == k then (g.1, g.2 ++ [p]) else g)
  else acc ++ [(p.1, [p])]

/-- Grouping of a factor list by rendered base text. -/
def groupFactors (l : List (Expression × Expression)) :
    List (Expression × List (Expression × Expression)) :=
  l.foldl insertFactor []

/-- The exponent accumulator of one group: starting from Constant(0), the
loop does exponent += f.exponent, and Expression.__add__ builds a
left-nested Add chain. -/
def expSum (fs : List (Expression × Expression)) : Expression :=
  fs.foldl (fun acc p => .Add acc p.2) (.Constant (.int 0))

/-- The group_multiplication_factors function, parameterized by the
simplifier `sf` used for the per-group exponent sums and for the rebuilt
product.  For each group it simplifies the summed exponent, builds
Power(first base, exponent) and multiplies it onto the accumulated result
(seeded with Constant(1)); if there are strictly fewer groups than
starting factors the rebuilt product is simplified, otherwise the original
Multiply is returned unchanged to avoid infinite recursion. -/
def groupRebuild (sf : Expression → Except Err Expression)
    (l r : Expression) : Except Err Expression := do
  let starting := getMF (.Multiply l r)
  let groups := groupFactors starting
  let result ← groups.foldlM
    (fun res g => do
      let es ← sf (expSum g.2)
      pure (Expression.Multiply res (.Power g.1 es)))
    (Expression.Constant (.int 1))
  if groups.length < starting.length then sf result
  else pure (.Multiply l r)

/-- Tail of the Multiply.simplify rule chain shared by the cases whose
leading isinstance tests failed: cancellation of two Minus operands,
propagation of a single Minus outward, collapsing two Powers over equal
bases (right exponent first in the sum, as the source writes it), and
otherwise factor grouping. -/
def mulTail (sf : Expression → Except Err Expression)
    (l r : Expression) : Except Err Expression :=
  match l, r with
  | .Minus lv, .Minus rv => sf (.Multiply lv rv)
  | .Minus lv, r => (sf (.Multiply lv r)).map .Minus
  | l, .Minus rv => (sf (.Multiply l rv)).map .Minus
  | .Power lb le, .Power rb re =>
      if exprEq rb lb then sf (.Power rb (.Add re le))
      else groupRebuild sf (.Power lb le) (.Power rb re)
  | l, r => groupRebuild sf l r

/-- Post-processing of Multiply.simplify after both children are
simplified, in source order: annihilating and neutral left element;
folding of two Constants (note the source computes right.value *
left.value); constant-to-the-left swap when the right operand is a
Constant; folding a Constant into a constant-led Multiply on the right;
then the shared `mulTail` chain. -/
def mulPost (sf : Expression → Except Err Expression)
    (l r : Expression) : Except Err Expression :=
  if eqExprRawNum l (.int 0) then pure (.Constant (.int 0))
  else if eqExprRawNum l (.int 1) then pure r
  else match viewC l, viewC r with
  | some lv, some rv => (cvMul rv lv).map mkC
  | _, some _ => sf (.Multiply r l)
  | some _, _ =>
      (match r with
       | .Multiply rl rr =>
           if (viewC rl).isSome then sf (.Multiply (.Multiply l rl) rr)
           else mulTail sf l r
       | _ => mulTail sf l r)
  | none, none => mulTail sf l r

/-- Post-processing of Add.simplify: a zero operand disappears, two
Constants fold (left.value + right.value, which can raise), otherwise the
Add is rebuilt. -/
def addPost (l r : Expression) : Except Err Expression :=
  if eqExprRawNum l (.int 0) then pure r
  else if eqExprRawNum r (.int 0) then pure l
  else match viewC l, viewC r with
  | some lv, some rv => (cvAdd lv rv).map mkC
  | _, _ => pure (.Add l r)

/-- Post-processing of Subtract.simplify: zero minuend gives Minus(right)
(unsimplified), zero subtrahend gives the left operand, otherwise the
Subtract is rebuilt. -/
def subPost (l r : Expression) : Expression :=
  if eqExprRawNum l (.int 0) then .Minus r
  else if eqExprRawNum r (.int 0) then l
  else .Subtract l r

/-- Post-processing of Minus.simplify: the branch tests the ORIGINAL value
for Constant; in that case the source computes Constant(-1 * value) where
value is the simplified Constant object, and -1 * value dispatches to
Expression.__rmul__, storing the expression Multiply(Constant(-1), value)
inside the returned Constant. -/
def minusPost (orig v : Expression) : Expression :=
  if isConstE orig then .ConstantE (.Multiply (.Constant (.int (-1))) v)
  else .Minus v

/-- Post-processing of Logarithm.simplify: Constant(1) when the simplified
value equals the numeric base, else the Logarithm is rebuilt with the same
base. -/
def logPost (b : PyNum) (v : Expression) : Expression :=
  if eqExprRawNum v b then .Constant (.int 1) else .Logarithm v b

/-- Post-processing of Power.simplify: two Constants fold through ** (which
can raise), a Constant exponent equal to 0 or 1 collapses, otherwise the
Power is rebuilt. -/
def powPost (b e : Expression) : Except Err Expression :=
  match viewC b, viewC e with
  | some bv, some ev => (cvPow bv ev).map mkC
  | _, some ev =>
      if cvEqInt ev 0 then pure (.Constant (.int 1))
      else if cvEqInt ev 1 then pure b
      else pure (.Power b e)
  | _, _ => pure (.Power b e)

/-- Tail of the Divide.simplify rule chain: Minus signs cancel or
propagate as in Multiply, otherwise the Divide is rebuilt. -/
def divTail (sf : Expression → Except Err Expression)
    (p q : Expression) : Except Err Expression :=
  match p, q with
  | .Minus a, .Minus b => sf (.Divide a b)
  | .Minus a, q => (sf (.Divide a q)).map .Minus
  | p, .Minus b => (sf (.Divide p b)).map .Minus
  | p, q => pure (.Divide p q)

/-- Post-processing of Divide.simplify, in source order: two Constants go
through the modulo-based folding (quotient when the dividend divides
evenly, reciprocal form when the divisor does, otherwise fall through to
the rebuilt Divide); a Constant over a Variable rewrites to dividend *
divisor ** -1 and is simplified; then the shared `divTail` chain. -/
def divPost (sf : Expression → Except Err Expression)
    (p q : Expression) : Except Err Expression :=
  match viewC p, viewC q with
  | some a, some b => do
      let m ← cvMod a b
      if eqNum m (.int 0) then do
        let d ← cvDiv a b
        pure (mkC d)
      else do
        let m2 ← cvMod b a
        if eqNum m2 (.int 0) then do
          let d2 ← cvDiv b a
          pure (.Divide (.Constant (.int 1)) (mkC d2))
        else pure (.Divide p q)
  | some _, _ =>
      (match q with
       | .Variable s =>
           sf (.Multiply p (.Power (.Variable s) (.Constant (.int (-1)))))
       | _ => divTail sf p q)
  | _, _ => divTail sf p q

/-- The simplifier, fuel-indexed (the fuel only models the unbounded Python
recursion: every recursive call, including the re-simplification of
rebuilt trees inside the Multiply and Divide rules and inside factor
grouping, runs at one unit less).  Constants and Variables simplify to
themselves; every composite node first simplifies its children and then
applies its post-processing rule. -/
def simplifyE : Nat → Expression → Except Err Expression
  | 0, _ => .error .fuelExhausted
  | f+1, e =>
    match e with
    | .Constant v => pure (.Constant v)
    | .ConstantE v => pure (.ConstantE v)
    | .Variable s => pure (.Variable s)
    | .Multiply a b => do
        mulPost (fun x => simplifyE f x) (← simplifyE f a) (← simplifyE f b)
    | .Add a b => do addPost (← simplifyE f a) (← simplifyE f b)
    | .Minus v => do pure (minusPost v (← simplifyE f v))
    | .Subtract a b => do pure (subPost (← simplifyE f a) (← simplifyE f b))
    | .Divide a b => do
        divPost (fun x => simplifyE f x) (← simplifyE f a) (← simplifyE f b)
    | .Logarithm v bs => do pure (logPost bs (← simplifyE f v))
    | .Power a b => do powPost (← simplifyE f a) (← simplifyE f b)

/-- The differentiator derive(expr, var), fuel-indexed like the simplifier
(recursive derivations run at one unit less; the simplifier calls the
source makes are modelled at the current fuel).  It first simplifies its
input, then dispatches on the resulting variant.  The source has rules
for Constant, Variable, Multiply, Add, Subtract, Divide, Logarithm and
Power; a Minus at dispatch falls through every isinstance test and
reaches the raise statement, modelled by the unsupportedDerivation error
carrying the rendered text of the unhandled expression. -/
def deriveE : Nat → Expression → String → Except Err Expression
  | 0, _, _ => .error .fuelExhausted
  | f+1, expr, v => do
    let e ← simplifyE (f+1) expr
    match e with
    | .Constant _ => pure (.Constant (.int 0))
    | .ConstantE _ => pure (.Constant (.int 0))
    | .Variable s =>
        pure (.Constant (.int (if s == v then 1 else 0)))
    | .Multiply l r => do
        let dl ← deriveE f l v
        let dr ← deriveE f r v
        simplifyE (f+1) (.Add (.Multiply dl r) (.Multiply l dr))
    | .Add l r => do
        let dl ← deriveE f l v
        let dr ← deriveE f r v
        simplifyE (f+1) (.Add dl dr)
    | .Subtract l r => do
        let dl ← deriveE f l v
        let dr ← deriveE f r v
        simplifyE (f+1) (.Subtract dl dr)
    | .Divide p q => do
        let dp ← deriveE f p v
        let dq ← deriveE f q v
        simplifyE (f+1) (.Divide
          (.Subtract (.Multiply dp q) (.Multiply p dq))
          (.Power q (.Constant (.int 2))))
    | .Logarithm w _ => do
        let dw ← deriveE f w v
        simplifyE (f+1)
          (.Multiply (.Divide (.Constant (.int 1)) w) dw)
    | .Power bb ee => do
        let dln ← deriveE f (.Multiply ee (.Logarithm bb (.float eulerVal))) v
        simplifyE (f+1) (.Multiply dln (.Power bb ee))
    | .Minus w =>
        .error (.unsupportedDerivation
          ("Derivation not implemented for: " ++ reprE (.Minus w)))



/-! Helper lemmas: which errors the simplifier can produce. -/

/-- Result predicate: the computation did not fail with the
UnsupportedDerivation error (it may have succeeded, run out of fuel, or
raised a numeric or type error). -/
def noUnsupErr {α : Type} : Except Err α → Bool
  | .error (.unsupportedDerivation _) => false
  | _ => true

theorem noUnsupErr_bind {α β : Type} (x : Except Err α) (g : α → Except Err β)
    (hx : noUnsupErr x = true) (hg : ∀ a, noUnsupErr (g a) = true) :
    noUnsupErr (x >>= g) = true := by
  cases x with
  | error e => cases e <;> first | rfl | exact absurd hx (by simp [noUnsupErr])
  | ok a => exact hg a

theorem noUnsupErr_map {α β : Type} (x : Except Err α) (g : α → β)
    (hx : noUnsupErr x = true) : noUnsupErr (x.map g) = true := by
  cases x with
  | error e => cases e <;> first | rfl | exact absurd hx (by simp [noUnsupErr])
  | ok a => rfl

theorem roundPosB64_noUnsup (m : Rat) : noUnsupErr (roundPosB64 m) = true := by
  simp only [roundPosB64]
  split_ifs <;> rfl

theorem roundB64_noUnsup (m : Rat) : noUnsupErr (roundB64 m) = true := by
  unfold roundB64
  split_ifs
  · rfl
  · exact roundPosB64_noUnsup m
  · exact noUnsupErr_map _ _ (roundPosB64_noUnsup _)

theorem intToFloat_noUnsup (a : Int) : noUnsupErr (intToFloat a) = true :=
  roundB64_noUnsup _

theorem pyMul_noUnsup (x y : PyNum) : noUnsupErr (pyMul x y) = true := by
  cases x <;> cases y <;>
    first
      | rfl
      | exact noUnsupErr_map _ _ (intToFloat_noUnsup _)

theorem pyAdd_noUnsup (x y : PyNum) : noUnsupErr (pyAdd x y) = true := by
  cases x <;> cases y <;>
    first
      | rfl
      | exact noUnsupErr_map _ _ (intToFloat_noUnsup _)

theorem pyMod_noUnsup (x y : PyNum) : noUnsupErr (pyMod x y) = true := by
  cases x <;> cases y <;> simp only [pyMod] <;>
    first
      | rfl
      | (split_ifs <;> rfl)
      | (refine noUnsupErr_bind _ _ (intToFloat_noUnsup _) fun v => ?_ ;
          split_ifs <;> rfl)

theorem pyDiv_noUnsup (x y : PyNum) : noUnsupErr (pyDiv x y) = true := by
  cases x <;> cases y <;> simp only [pyDiv] <;>
    first
      | rfl
      | (split_ifs <;>
          first
            | rfl
            | exact noUnsupErr_map _ _ (roundB64_noUnsup _))
      | (refine noUnsupErr_bind _ _ (intToFloat_noUnsup _) fun v => ?_ ;
          split_ifs <;> rfl)

theorem powFloatExp_noUnsup (b q : Rat) : noUnsupErr (powFloatExp b q) = true := by
  unfold powFloatExp
  split_ifs
  · rfl
  · cases roundB64 (ratZPow b q.num) <;> rfl
  · rfl

theorem pyPow_noUnsup (x y : PyNum) : noUnsupErr (pyPow x y) = true := by
  cases x <;> cases y <;> simp only [pyPow] <;>
    first
      | rfl
      | exact powFloatExp_noUnsup _ _
      | (refine noUnsupErr_bind _ _ (intToFloat_noUnsup _) fun v => ?_ ;
          exact powFloatExp_noUnsup _ _)
      | (split_ifs
         · rfl
         · exact noUnsupErr_bind _ _ (intToFloat_noUnsup _) fun fa =>
             noUnsupErr_bind _ _ (intToFloat_noUnsup _) fun fn =>
               powFloatExp_noUnsup _ _)

theorem cvMul_noUnsup (v w : CVal) : noUnsupErr (cvMul v w) = true := by
  cases v <;> cases w <;>
    first | rfl | exact noUnsupErr_map _ _ (pyMul_noUnsup _ _)

theorem cvAdd_noUnsup (v w : CVal) : noUnsupErr (cvAdd v w) = true := by
  cases v <;> cases w <;>
    first | rfl | exact noUnsupErr_map _ _ (pyAdd_noUnsup _ _)

theorem cvMod_noUnsup (v w : CVal) : noUnsupErr (cvMod v w) = true := by
  cases v <;> cases w <;> first | rfl | exact pyMod_noUnsup _ _

theorem cvDiv_noUnsup (v w : CVal) : noUnsupErr (cvDiv v w) = true := by
  cases v <;> cases w <;>
    first | rfl | exact noUnsupErr_map _ _ (pyDiv_noUnsup _ _)

theorem cvPow_noUnsup (v w : CVal) : noUnsupErr (cvPow v w) = true := by
  cases v <;> cases w <;>
    first | rfl | exact noUnsupErr_map _ _ (pyPow_noUnsup _ _)

theorem noUnsupErr_foldlM {α β : Type} (step : β → α → Except Err β)
    (hstep : ∀ b a, noUnsupErr (step b a) = true) :
    ∀ (l : List α) (init : β), noUnsupErr (l.foldlM step init) = true
  | [], _ => rfl
  | a :: l, init => by
      rw [List.foldlM_cons]
      exact noUnsupErr_bind _ _ (hstep init a)
        (fun b => noUnsupErr_foldlM step hstep l b)

theorem groupRebuild_noUnsup (sf : Expression → Except Err Expression)
    (hsf : ∀ x, noUnsupErr (sf x) = true) (l r : Expression) :
    noUnsupErr (groupRebuild sf l r) = true := by
  unfold groupRebuild
  refine noUnsupErr_bind _ _ ?_ ?_
  · refine noUnsupErr_foldlM _ ?_ _ _
    intro b a
    exact noUnsupErr_bind _ _ (hsf _) (fun es => rfl)
  · intro result
    split
    · exact hsf _
    · rfl

theorem mulTail_noUnsup (sf : Expression → Except Err Expression)
    (hsf : ∀ x, noUnsupErr (sf x) = true) (l r : Expression) :
    noUnsupErr (mulTail sf l r) = true := by
  unfold mulTail
  split
  · exact hsf _
  · exact noUnsupErr_map _ _ (hsf _)
  · exact noUnsupErr_map _ _ (hsf _)
  · split
    · exact hsf _
    · exact groupRebuild_noUnsup sf hsf _ _
  · exact groupRebuild_noUnsup sf hsf _ _

theorem mulPost_noUnsup (sf : Expression → Except Err Expression)
    (hsf : ∀ x, noUnsupErr (sf x) = true) (l r : Expression) :
    noUnsupErr (mulPost sf l r) = true := by
  unfold mulPost
  split_ifs
  · rfl
  · rfl
  · split
    · exact noUnsupErr_map _ _ (cvMul_noUnsup _ _)
    · exact hsf _
    · split
      · split
        · exact hsf _
        · exact mulTail_noUnsup sf hsf _ _
      · exact mulTail_noUnsup sf hsf _ _
    · exact mulTail_noUnsup sf hsf _ _

theorem addPost_noUnsup (l r : Expression) : noUnsupErr (addPost l r) = true := by
  unfold addPost
  split_ifs
  · rfl
  · rfl
  · split
    · exact noUnsupErr_map _ _ (cvAdd_noUnsup _ _)
    · rfl

theorem divTail_noUnsup (sf : Expression → Except Err Expression)
    (hsf : ∀ x, noUnsupErr (sf x) = true) (p q : Expression) :
    noUnsupErr (divTail sf p q) = true := by
  unfold divTail
  split
  · exact hsf _
  · exact noUnsupErr_map _ _ (hsf _)
  · exact noUnsupErr_map _ _ (hsf _)
  · rfl

theorem divPost_noUnsup (sf : Expression → Except Err Expression)
    (hsf : ∀ x, noUnsupErr (sf x) = true) (p q : Expression) :
    noUnsupErr (divPost sf p q) = true := by
  unfold divPost
  split
  · apply noUnsupErr_bind _ _ (cvMod_noUnsup _ _)
    intro m
    split
    · exact noUnsupErr_bind _ _ (cvDiv_noUnsup _ _) (fun d => rfl)
    · apply noUnsupErr_bind _ _ (cvMod_noUnsup _ _)
      intro m2
      split
      · exact noUnsupErr_bind _ _ (cvDiv_noUnsup _ _) (fun d2 => rfl)
      · rfl
  · split
    · exact hsf _
    · exact divTail_noUnsup sf hsf _ _
  · exact divTail_noUnsup sf hsf _ _

theorem powPost_noUnsup (b e : Expression) : noUnsupErr (powPost b e) = true := by
  unfold powPost
  split
  · exact noUnsupErr_map _ _ (cvPow_noUnsup _ _)
  · split_ifs <;> rfl
  · rfl

/-- The simplifier never surfaces the UnsupportedDerivation error: its only
failure modes are the numeric ZeroDivisionError, the TypeError produced by
taking a modulo of an expression-valued Constant, and fuel exhaustion. -/
theorem simplify_noUnsup : ∀ (f : Nat) (e : Expression),
    noUnsupErr (simplifyE f e) = true := by
  intro f
  induction f with
  | zero => intro e; rfl
  | succ f ih =>
      intro e
      cases e with
      | Constant v => rfl
      | ConstantE v => rfl
      | Variable s => rfl
      | Multiply a b =>
          exact noUnsupErr_bind _ _ (ih a) fun l =>
            noUnsupErr_bind _ _ (ih b) fun r =>
              mulPost_noUnsup _ (fun x => ih x) l r
      | Add a b =>
          exact noUnsupErr_bind _ _ (ih a) fun l =>
            noUnsupErr_bind _ _ (ih b) fun r => addPost_noUnsup l r
      | Minus v => exact noUnsupErr_bind _ _ (ih v) fun w => rfl
      | Subtract a b =>
          exact noUnsupErr_bind _ _ (ih a) fun l =>
            noUnsupErr_bind _ _ (ih b) fun r => rfl
      | Divide a b =>
          exact noUnsupErr_bind _ _ (ih a) fun l =>
            noUnsupErr_bind _ _ (ih b) fun r =>
              divPost_noUnsup _ (fun x => ih x) l r
      | Logarithm v bs => exact noUnsupErr_bind _ _ (ih v) fun w => rfl
      | Power a b =>
          exact noUnsupErr_bind _ _ (ih a) fun l =>
            noUnsupErr_bind _ _ (ih b) fun r => powPost_noUnsup l r



/-! Helper lemmas: Minus/Subtract-freeness is preserved by the simplifier,
and the differentiator cannot hit its unsupported-variant error on a
Minus/Subtract-free tree. -/

/-- Minus/Subtract-freeness of a Constant value. -/
def msFreeCV : CVal → Bool
  | .num _ => true
  | .expr e => msFree e

/-- Result predicate: if the computation succeeded, its value is
Minus/Subtract-free. -/
def msOk : Except Err Expression → Bool
  | .ok r => msFree r
  | .error _ => true

theorem noUnsupErr_bindOk {α β : Type} (x : Except Err α) (g : α → Except Err β)
    (hx : noUnsupErr x = true) (hg : ∀ a, x = .ok a → noUnsupErr (g a) = true) :
    noUnsupErr (x >>= g) = true := by
  cases x with
  | error e => cases e <;> first | rfl | exact absurd hx (by simp [noUnsupErr])
  | ok a => exact hg a rfl

theorem msOk_bind (x : Except Err Expression) (g : Expression → Except Err Expression)
    (hx : msOk x = true) (hg : ∀ a, x = .ok a → msOk (g a) = true) :
    msOk (x >>= g) = true := by
  cases x with
  | error e => rfl
  | ok a => exact hg a rfl

theorem msOk_map (x : Except Err Expression) (g : Expression → Expression)
    (hg : ∀ a, x = .ok a → msFree (g a) = true) :
    msOk (x.map g) = true := by
  cases x with
  | error e => rfl
  | ok a => exact hg a rfl

theorem viewC_msFree (e : Expression) (v : CVal) (h : viewC e = some v)
    (he : msFree e = true) : msFreeCV v = true := by
  cases e <;> simp only [viewC, Option.some.injEq] at h <;> try exact absurd h (by simp)
  case Constant n => subst h; rfl
  case ConstantE g => subst h; exact he

theorem mkC_msFree (v : CVal) (h : msFreeCV v = true) : msFree (mkC v) = true := by
  cases v <;> simp_all [mkC, msFree, msFreeCV]

theorem cvMul_msFree (v w : CVal) (u : CVal) (hv : msFreeCV v = true)
    (hw : msFreeCV w = true) (h : cvMul v w = .ok u) : msFreeCV u = true := by
  cases v <;> cases w <;> simp only [cvMul, Except.ok.injEq] at h
  case num.num x y =>
      cases hp : pyMul x y <;> rw [hp] at h <;> simp only [Except.map] at h
      · exact absurd h (by simp)
      · simp only [Except.ok.injEq] at h; subst h; rfl
  case num.expr x g => subst h; simpa [msFreeCV, msFree] using hw
  case expr.num g y => subst h; simpa [msFreeCV, msFree] using hv
  case expr.expr g1 g2 =>
      subst h
      simp only [msFreeCV] at hv hw
      simp [msFreeCV, msFree, hv, hw]

theorem cvAdd_msFree (v w : CVal) (u : CVal) (hv : msFreeCV v = true)
    (hw : msFreeCV w = true) (h : cvAdd v w = .ok u) : msFreeCV u = true := by
  cases v <;> cases w <;> simp only [cvAdd, Except.ok.injEq] at h
  case num.num x y =>
      cases hp : pyAdd x y <;> rw [hp] at h <;> simp only [Except.map] at h
      · exact absurd h (by simp)
      · simp only [Except.ok.injEq] at h; subst h; rfl
  case num.expr x g => subst h; simpa [msFreeCV, msFree] using hw
  case expr.num g y => subst h; simpa [msFreeCV, msFree] using hv
  case expr.expr g1 g2 =>
      subst h
      simp only [msFreeCV] at hv hw
      simp [msFreeCV, msFree, hv, hw]

theorem cvPow_msFree (v w : CVal) (u : CVal) (hv : msFreeCV v = true)
    (hw : msFreeCV w = true) (h : cvPow v w = .ok u) : msFreeCV u = true := by
  cases v <;> cases w <;> simp only [cvPow, Except.ok.injEq] at h
  case num.num x y =>
      cases hp : pyPow x y <;> rw [hp] at h <;> simp only [Except.map] at h
      · exact absurd h (by simp)
      · simp only [Except.ok.injEq] at h; subst h; rfl
  case num.expr x g => subst h; simpa [msFreeCV, msFree] using hw
  case expr.num g y => subst h; simpa [msFreeCV, msFree] using hv
  case expr.expr g1 g2 =>
      subst h
      simp only [msFreeCV] at hv hw
      simp [msFreeCV, msFree, hv, hw]

theorem cvDiv_msFree (v w : CVal) (u : CVal) (hv : msFreeCV v = true)
    (hw : msFreeCV w = true) (h : cvDiv v w = .ok u) : msFreeCV u = true := by
  cases v <;> cases w <;> simp only [cvDiv, Except.ok.injEq] at h
  case num.num x y =>
      cases hp : pyDiv x y <;> rw [hp] at h <;> simp only [Except.map] at h
      · exact absurd h (by simp)
      · simp only [Except.ok.injEq] at h; subst h; rfl
  case num.expr x g => subst h; simpa [msFreeCV, msFree] using hw
  case expr.num g y => subst h; simpa [msFreeCV, msFree] using hv
  case expr.expr g1 g2 =>
      subst h
      simp only [msFreeCV] at hv hw
      simp [msFreeCV, msFree, hv, hw]

theorem getMF_msFree : ∀ (e : Expression), msFree e = true →
    ∀ p ∈ getMF e, msFree p.1 = true ∧ msFree p.2 = true := by
  intro e
  induction e with
  | Multiply l r ihl ihr =>
      intro he p hp
      simp only [getMF, List.mem_append] at hp
      simp only [msFree, Bool.and_eq_true] at he
      rcases hp with hp | hp
      · exact ihr he.2 p hp
      · exact ihl he.1 p hp
  | Power b ex ihb ihe =>
      intro he p hp
      simp only [getMF, List.mem_singleton] at hp
      subst hp
      simp only [msFree, Bool.and_eq_true] at he
      exact ⟨he.1, he.2⟩
  | _ =>
      intro he p hp
      simp only [getMF, List.mem_singleton] at hp
      subst hp
      exact ⟨he, rfl⟩

/-- Well-formedness of one group produced by the grouping loop: its base
and all member exponents are Minus/Subtract-free. -/
def GoodG (g : Expression × List (Expression × Expression)) : Prop :=
  msFree g.1 = true ∧ ∀ q ∈ g.2, msFree q.2 = true

theorem insertFactor_good (acc : List (Expression × List (Expression × Expression)))
    (p : Expression × Expression) (hacc : ∀ g ∈ acc, GoodG g)
    (hp : msFree p.1 = true ∧ msFree p.2 = true) :
    ∀ g ∈ insertFactor acc p, GoodG g := by
  intro g hg
  simp only [insertFactor] at hg
  split at hg
  · rcases List.mem_map.1 hg with ⟨g0, hg0, rfl⟩
    have h0 := hacc g0 hg0
    split
    · refine ⟨h0.1, ?_⟩
      intro q hq
      rcases List.mem_append.1 hq with hq | hq
      · exact h0.2 q hq
      · rcases List.mem_singleton.1 hq with rfl
        exact hp.2
    · exact h0
  · rcases List.mem_append.1 hg with hg | hg
    · exact hacc g hg
    · rcases List.mem_singleton.1 hg with rfl
      exact ⟨hp.1, by intro q hq; rcases List.mem_singleton.1 hq with rfl; exact hp.2⟩

theorem foldl_insertFactor_good :
    ∀ (l : List (Expression × Expression))
      (acc : List (Expression × List (Expression × Expression))),
      (∀ g ∈ acc, GoodG g) → (∀ p ∈ l, msFree p.1 = true ∧ msFree p.2 = true) →
      ∀ g ∈ List.foldl insertFactor acc l, GoodG g
  | [], acc, hacc, _ => hacc
  | p :: l, acc, hacc, hl => by
      intro g hg
      simp only [List.foldl_cons] at hg
      exact foldl_insertFactor_good l (insertFactor acc p)
        (insertFactor_good acc p hacc (hl p (List.mem_cons_self p l)))
        (fun q hq => hl q (List.mem_cons_of_mem p hq)) g hg

theorem groupFactors_good (l : List (Expression × Expression))
    (hl : ∀ p ∈ l, msFree p.1 = true ∧ msFree p.2 = true) :
    ∀ g ∈ groupFactors l, GoodG g := by
  exact foldl_insertFactor_good l [] (by intro g hg; cases hg) hl

theorem expSum_msFree_aux :
    ∀ (fs : List (Expression × Expression)) (init : Expression),
      msFree init = true → (∀ q ∈ fs, msFree q.2 = true) →
      msFree (List.foldl (fun acc p => Expression.Add acc p.2) init fs) = true
  | [], init, hi, _ => hi
  | q :: fs, init, hi, hq => by
      simp only [List.foldl_cons]
      exact expSum_msFree_aux fs _
        (by simp [msFree, hi, hq q (List.mem_cons_self q fs)])
        (fun p hp => hq p (List.mem_cons_of_mem q hp))

theorem expSum_msFree (fs : List (Expression × Expression))
    (h : ∀ q ∈ fs, msFree q.2 = true) : msFree (expSum fs) = true :=
  expSum_msFree_aux fs _ rfl h

theorem foldlM_group_msOk (sf : Expression → Except Err Expression)
    (hsf : ∀ x, msFree x = true → msOk (sf x) = true) :
    ∀ (gs : List (Expression × List (Expression × Expression)))
      (init : Expression), (∀ g ∈ gs, GoodG g) → msFree init = true →
      msOk (gs.foldlM (fun res g => do
        let es ← sf (expSum g.2)
        pure (Expression.Multiply res (.Power g.1 es))) init) = true
  | [], init, _, hi => hi
  | g :: gs, init, hgs, hi => by
      rw [List.foldlM_cons]
      have hgood := hgs g (List.mem_cons_self g gs)
      have h1 : msOk (sf (expSum g.2)) = true :=
        hsf _ (expSum_msFree _ hgood.2)
      refine msOk_bind _ _ ?_ ?_
      · refine msOk_bind _ _ h1 ?_
        intro es hes
        rw [hes] at h1
        simpa [msOk, pure, Except.pure, msFree, hi, hgood.1] using h1
      · intro b hb
        have hbfree : msFree b = true := by
          have h2 : msOk ((do
            let es ← sf (expSum g.2)
            pure (Expression.Multiply init (.Power g.1 es)) :
              Except Err Expression)) = true := by
            refine msOk_bind _ _ h1 ?_
            intro es hes
            rw [hes] at h1
            simpa [msOk, pure, Except.pure, msFree, hi, hgood.1] using h1
          rw [hb] at h2
          exact h2
        exact foldlM_group_msOk sf hsf gs b
          (fun g2 hg2 => hgs g2 (List.mem_cons_of_mem g hg2)) hbfree

theorem groupRebuild_msOk (sf : Expression → Except Err Expression)
    (hsf : ∀ x, msFree x = true → msOk (sf x) = true) (l r : Expression)
    (hl : msFree l = true) (hr : msFree r = true) :
    msOk (groupRebuild sf l r) = true := by
  unfold groupRebuild
  have hml : msFree (Expression.Multiply l r) = true := by simp [msFree, hl, hr]
  have hfac := getMF_msFree (.Multiply l r) hml
  have hgr := groupFactors_good _ hfac
  have hfold := foldlM_group_msOk sf hsf (groupFactors (getMF (.Multiply l r)))
    (.Constant (.int 1)) hgr rfl
  refine msOk_bind _ _ hfold ?_
  intro result hres
  rw [hres] at hfold
  split
  · exact hsf _ hfold
  · simpa [msOk] using hml



theorem bind_ok {α β : Type} (a : α) (g : α → Except Err β) :
    (Except.ok a >>= g) = g a := rfl

theorem bind_err {α β : Type} (e : Err) (g : α → Except Err β) :
    ((Except.error e : Except Err α) >>= g) = .error e := rfl

theorem addPost_msOk (l r : Expression) (hl : msFree l = true)
    (hr : msFree r = true) : msOk (addPost l r) = true := by
  unfold addPost
  split_ifs
  · simpa [msOk, pure, Except.pure] using hr
  · simpa [msOk, pure, Except.pure] using hl
  · split
    · next lv rv hvl hvr =>
        cases hp : cvAdd lv rv
        · rfl
        · next u =>
            exact mkC_msFree u (cvAdd_msFree _ _ u (viewC_msFree _ _ hvl hl)
              (viewC_msFree _ _ hvr hr) hp)
    · simpa [msOk, pure, Except.pure, msFree, hl] using hr

theorem logPost_msFree (bs : PyNum) (v : Expression) (hv : msFree v = true) :
    msFree (logPost bs v) = true := by
  unfold logPost
  split_ifs
  · rfl
  · simpa [msFree] using hv

theorem powPost_msOk (b e : Expression) (hb : msFree b = true)
    (he : msFree e = true) : msOk (powPost b e) = true := by
  unfold powPost
  split
  · next bv ev hvb hve =>
      cases hp : cvPow bv ev
      · rfl
      · next u =>
          exact mkC_msFree u (cvPow_msFree bv ev u (viewC_msFree _ _ hvb hb)
            (viewC_msFree _ _ hve he) hp)
  · split_ifs
    · rfl
    · exact hb
    · simpa [msOk, pure, Except.pure, msFree, hb] using he
  · simpa [msOk, pure, Except.pure, msFree, hb] using he

theorem mulTail_msOk (sf : Expression → Except Err Expression)
    (hsf : ∀ x, msFree x = true → msOk (sf x) = true) (l r : Expression)
    (hl : msFree l = true) (hr : msFree r = true) :
    msOk (mulTail sf l r) = true := by
  unfold mulTail
  split
  · simp [msFree] at hl
  · simp [msFree] at hl
  · simp [msFree] at hr
  · split
    · apply hsf
      simp only [msFree, Bool.and_eq_true] at hl hr
      simp [msFree, hl, hr]
    · exact groupRebuild_msOk sf hsf _ _ hl hr
  · exact groupRebuild_msOk sf hsf _ _ hl hr

theorem mulPost_msOk (sf : Expression → Except Err Expression)
    (hsf : ∀ x, msFree x = true → msOk (sf x) = true) (l r : Expression)
    (hl : msFree l = true) (hr : msFree r = true) :
    msOk (mulPost sf l r) = true := by
  unfold mulPost
  split_ifs
  · rfl
  · exact hr
  · split
    · next lv rv hvl hvr =>
        cases hp : cvMul rv lv
        · rfl
        · next u =>
            exact mkC_msFree u (cvMul_msFree _ _ u (viewC_msFree _ _ hvr hr)
              (viewC_msFree _ _ hvl hl) hp)
    · exact hsf _ (by simp [msFree, hl, hr])
    · split
      · split_ifs
        · apply hsf
          simp only [msFree, Bool.and_eq_true] at hr
          simp [msFree, hl, hr.1, hr.2]
        · exact mulTail_msOk sf hsf _ _ hl hr
      · exact mulTail_msOk sf hsf _ _ hl hr
    · exact mulTail_msOk sf hsf _ _ hl hr

theorem divTail_msOk (sf : Expression → Except Err Expression)
    (_hsf : ∀ x, msFree x = true → msOk (sf x) = true) (p q : Expression)
    (hp : msFree p = true) (hq : msFree q = true) :
    msOk (divTail sf p q) = true := by
  unfold divTail
  split
  · simp [msFree] at hp
  · simp [msFree] at hp
  · simp [msFree] at hq
  · simpa [msOk, pure, Except.pure, msFree, hp] using hq

theorem divPost_msOk (sf : Expression → Except Err Expression)
    (hsf : ∀ x, msFree x = true → msOk (sf x) = true) (p q : Expression)
    (hp : msFree p = true) (hq : msFree q = true) :
    msOk (divPost sf p q) = true := by
  unfold divPost
  split
  · next a b hva hvb =>
      cases hm : cvMod a b
      · rfl
      · next m =>
        rw [bind_ok]
        split_ifs
        · cases hd : cvDiv a b
          · rfl
          · next d =>
              rw [bind_ok]
              exact mkC_msFree d (cvDiv_msFree a b d (viewC_msFree _ _ hva hp)
                (viewC_msFree _ _ hvb hq) hd)
        · cases hm2 : cvMod b a
          · rfl
          · next m2 =>
            rw [bind_ok]
            split_ifs
            · cases hd2 : cvDiv b a
              · rfl
              · next d2 =>
                  rw [bind_ok]
                  have := mkC_msFree d2 (cvDiv_msFree b a d2
                    (viewC_msFree _ _ hvb hq) (viewC_msFree _ _ hva hp) hd2)
                  simpa [msOk, pure, Except.pure, msFree] using this
            · simpa [msOk, pure, Except.pure, msFree, hp] using hq
  · split
    · exact hsf _ (by simp [msFree, hp])
    · exact divTail_msOk sf hsf _ _ hp hq
  · exact divTail_msOk sf hsf _ _ hp hq

/-- Simplification preserves Minus/Subtract-freeness: on a tree with no
Minus and no Subtract node, every rule of the simplifier rebuilds only
Minus/Subtract-free trees (the rules that produce a Minus all require a
Minus or Subtract in their input). -/
theorem simplify_msOk : ∀ (f : Nat) (e : Expression), msFree e = true →
    msOk (simplifyE f e) = true := by
  intro f
  induction f with
  | zero => intro e h; rfl
  | succ f ih =>
      intro e h
      cases e with
      | Constant v => exact h
      | ConstantE v => exact h
      | Variable s => exact h
      | Minus v => simp [msFree] at h
      | Subtract a b => simp [msFree] at h
      | Multiply a b =>
          simp only [msFree, Bool.and_eq_true] at h
          refine msOk_bind _ _ (ih a h.1) ?_
          intro l hla
          have hml : msFree l = true := by
            have := ih a h.1; rw [hla] at this; exact this
          refine msOk_bind _ _ (ih b h.2) ?_
          intro r hrb
          have hmr : msFree r = true := by
            have := ih b h.2; rw [hrb] at this; exact this
          exact mulPost_msOk _ (fun x hx => ih x hx) l r hml hmr
      | Add a b =>
          simp only [msFree, Bool.and_eq_true] at h
          refine msOk_bind _ _ (ih a h.1) ?_
          intro l hla
          have hml : msFree l = true := by
            have := ih a h.1; rw [hla] at this; exact this
          refine msOk_bind _ _ (ih b h.2) ?_
          intro r hrb
          have hmr : msFree r = true := by
            have := ih b h.2; rw [hrb] at this; exact this
          exact addPost_msOk l r hml hmr
      | Divide a b =>
          simp only [msFree, Bool.and_eq_true] at h
          refine msOk_bind _ _ (ih a h.1) ?_
          intro l hla
          have hml : msFree l = true := by
            have := ih a h.1; rw [hla] at this; exact this
          refine msOk_bind _ _ (ih b h.2) ?_
          intro r hrb
          have hmr : msFree r = true := by
            have := ih b h.2; rw [hrb] at this; exact this
          exact divPost_msOk _ (fun x hx => ih x hx) l r hml hmr
      | Logarithm v bs =>
          simp only [msFree] at h
          refine msOk_bind _ _ (ih v h) ?_
          intro w hw
          have hmw : msFree w = true := by
            have := ih v h; rw [hw] at this; exact this
          exact logPost_msFree bs w hmw
      | Power a b =>
          simp only [msFree, Bool.and_eq_true] at h
          refine msOk_bind _ _ (ih a h.1) ?_
          intro l hla
          have hml : msFree l = true := by
            have := ih a h.1; rw [hla] at this; exact this
          refine msOk_bind _ _ (ih b h.2) ?_
          intro r hrb
          have hmr : msFree r = true := by
            have := ih b h.2; rw [hrb] at this; exact this
          exact powPost_msOk l r hml hmr

/-- The differentiator never surfaces its unsupported-variant error on a
tree free of Minus and Subtract nodes: simplification keeps such trees
free of them, and every dispatch of derive then lands on a variant with a
rule. -/
theorem derive_msFree_noUnsup : ∀ (f : Nat) (e : Expression) (v : String),
    msFree e = true → noUnsupErr (deriveE f e v) = true := by
  intro f
  induction f with
  | zero => intro e v h; rfl
  | succ f ih =>
      intro e v h
      refine noUnsupErr_bindOk _ _ (simplify_noUnsup _ _) ?_
      intro a ha
      have hma : msFree a = true := by
        have := simplify_msOk (f+1) e h; rw [ha] at this; exact this
      cases a with
      | Constant w => rfl
      | ConstantE w => rfl
      | Variable s => rfl
      | Minus w => simp [msFree] at hma
      | Subtract l r => simp [msFree] at hma
      | Multiply l r =>
          simp only [msFree, Bool.and_eq_true] at hma
          exact noUnsupErr_bind _ _ (ih l v hma.1) fun dl =>
            noUnsupErr_bind _ _ (ih r v hma.2) fun dr => simplify_noUnsup _ _
      | Add l r =>
          simp only [msFree, Bool.and_eq_true] at hma
          exact noUnsupErr_bind _ _ (ih l v hma.1) fun dl =>
            noUnsupErr_bind _ _ (ih r v hma.2) fun dr => simplify_noUnsup _ _
      | Divide p q =>
          simp only [msFree, Bool.and_eq_true] at hma
          exact noUnsupErr_bind _ _ (ih p v hma.1) fun dp =>
            noUnsupErr_bind _ _ (ih q v hma.2) fun dq => simplify_noUnsup _ _
      | Logarithm w bs =>
          simp only [msFree] at hma
          exact noUnsupErr_bind _ _ (ih w v hma) fun dw => simplify_noUnsup _ _
      | Power bb ee =>
          simp only [msFree, Bool.and_eq_true] at hma
          refine noUnsupErr_bind _ _
            (ih (.Multiply ee (.Logarithm bb (.float eulerVal))) v ?_)
            fun dln => simplify_noUnsup _ _
          simp [msFree, hma.1, hma.2]

/-! The claims. -/

/-- C1 (amended): derive raises its UnsupportedDerivation error only upon
dispatching on a Minus node, the one variant of the closed set for which
no differentiation rule exists; on every tree containing no Minus and no
Subtract node (so that no Minus can reach dispatch) it never raises that
error, while for example derive(Minus(Variable x), x) does raise it with
the message naming the rendered expression. -/
theorem claim_C1_derive_unsupported_only_for_minus :
    (∀ (f : Nat) (e : Expression) (v : String), msFree e = true →
        noUnsupErr (deriveE f e v) = true) ∧
    deriveE 5 (.Minus (.Variable "x")) "x"
      = .error (.unsupportedDerivation "Derivation not implemented for: - x") :=
  ⟨derive_msFree_noUnsup, rfl⟩

/-- C1 witness: a concrete Minus/Subtract-free tree on which derive does
not raise the unsupported error. -/
theorem claim_C1_witness :
    msFree (.Add (.Variable "x") (.Constant (.int 1))) = true ∧
    noUnsupErr (deriveE 6 (.Add (.Variable "x") (.Constant (.int 1))) "x") = true :=
  ⟨rfl, claim_C1_derive_unsupported_only_for_minus.1 6
    (.Add (.Variable "x") (.Constant (.int 1))) "x" rfl⟩

/-- C1 counterexample to the claim as stated: Minus is in the closed
variant set, every subtree here is well-formed, yet derive raises the
UnsupportedDerivation error on Minus(Variable x). -/
theorem claim_C1_counterexample :
    deriveE 5 (.Minus (.Variable "x")) "x"
      = .error (.unsupportedDerivation "Derivation not implemented for: - x") := rfl

/-- C2 (amended): simplify is not total.  Its constant folding applies the
Python arithmetic with no guard: the modulo of the Divide folding raises
ZeroDivisionError on a Divide of the Constants 1 and 0, Power folding
raises it for 0 ** -1, and the true division of the Divide folding raises
OverflowError when the quotient leaves the binary64 range, as for the
Constants 10^400 and 2.  One error simplify never surfaces is the
differentiator's UnsupportedDerivation error. -/
theorem claim_C2_simplify_not_total :
    simplifyE 5 (.Divide (.Constant (.int 1)) (.Constant (.int 0)))
      = .error .zeroDivision ∧
    simplifyE 5 (.Power (.Constant (.int 0)) (.Constant (.int (-1))))
      = .error .zeroDivision ∧
    simplifyE 5 (.Divide
        (.Constant (.int 10000000000000000000000000000000000000000000000000000000000000000000000000000000000000000000000000000000000000000000000000000000000000000000000000000000000000000000000000000000000000000000000000000000000000000000000000000000000000000000000000000000000000000000000000000000000000000000000000000000000000000000000000000000000000000000000000000000000000000000000000000000000000000000000000000000000000000))
        (.Constant (.int 2)))
      = .error .overflowError ∧
    (∀ (f : Nat) (e : Expression), noUnsupErr (simplifyE f e) = true) :=
  ⟨rfl, rfl, rfl, simplify_noUnsup⟩

/-- C2 counterexample to the claim as stated: simplify raises
ZeroDivisionError on a Divide node whose divisor is the Constant 0. -/
theorem claim_C2_counterexample :
    simplifyE 5 (.Divide (.Constant (.int 1)) (.Constant (.int 0)))
      = .error .zeroDivision := rfl

/-- C3: counterexamples to textual equality and hashing.  The
dataclass-generated structural equality makes the two associations of
x + y + z unequal although they render identically, and makes Constant(2)
equal to Constant(2.0) although they render differently; x + 1 and 1 + x
are indeed unequal. -/
theorem claim_C3_eq_not_textual :
    reprE (.Add (.Add (.Variable "x") (.Variable "y")) (.Variable "z"))
      = "x + y + z" ∧
    reprE (.Add (.Variable "x") (.Add (.Variable "y") (.Variable "z")))
      = "x + y + z" ∧
    exprEq (.Add (.Add (.Variable "x") (.Variable "y")) (.Variable "z"))
      (.Add (.Variable "x") (.Add (.Variable "y") (.Variable "z"))) = false ∧
    exprEq (.Constant (.int 2)) (.Constant (.float (ratI 2))) = true ∧
    reprE (.Constant (.int 2)) = "2" ∧
    reprE (.Constant (.float (ratI 2))) = "2.0" ∧
    exprEq (.Add (.Variable "x") (.Constant (.int 1)))
      (.Add (.Constant (.int 1)) (.Variable "x")) = false :=
  ⟨rfl, rfl, rfl, rfl, rfl, rfl, rfl⟩

/-- C4: simplify is not idempotent with respect to rendered text.
Subtract(0, 2) simplifies to the unsimplified Minus(Constant(2)),
rendering -2, but a second simplification hits the Minus-of-Constant slip
and renders -1 * 2. -/
theorem claim_C4_not_idempotent :
    (simplifyE 5 (.Subtract (.Constant (.int 0)) (.Constant (.int 2)))).map reprE
      = .ok "-2" ∧
    ((simplifyE 5 (.Subtract (.Constant (.int 0)) (.Constant (.int 2)))).bind
      (simplifyE 5)).map reprE = .ok "-1 * 2" :=
  ⟨rfl, rfl⟩

/-- C5: simplifying Minus(Constant(2)) does not produce the Constant -2.
The source computes Constant(-1 * value) on the Constant object itself,
which dispatches to Expression.__rmul__ and stores the expression
Multiply(Constant(-1), Constant(2)) inside the Constant, rendering
-1 * 2 instead of -2. -/
theorem claim_C5_minus_constant_slip :
    simplifyE 5 (.Minus (.Constant (.int 2)))
      = .ok (.ConstantE (.Multiply (.Constant (.int (-1))) (.Constant (.int 2)))) ∧
    (simplifyE 5 (.Minus (.Constant (.int 2)))).map reprE = .ok "-1 * 2" :=
  ⟨rfl, rfl⟩

/-- C6: the five differentiation results of the specification, rendered
exactly. -/
theorem claim_C6_derive_results :
    (deriveE 20 (.Add (.Add
        (.Multiply (.Constant (.int 2)) (.Power (.Variable "x") (.Constant (.int 3))))
        (.Multiply (.Constant (.int 3)) (.Variable "x")))
      (.Constant (.int 2))) "x").map reprE = .ok "6 * x ** 2 + 3" ∧
    (deriveE 20 (.Power (.Variable "x") (.Constant (.int 3))) "x").map reprE
      = .ok "3 * x ** 2" ∧
    (deriveE 20 (.Power (.Constant (.int 3)) (.Variable "x")) "x").map reprE
      = .ok "ln(3) * 3 ** x" ∧
    (deriveE 20 (.Power (.Constant (.float eulerVal)) (.Variable "x")) "x").map reprE
      = .ok "e ** x" ∧
    (deriveE 20 (.Power (.Variable "x") (.Variable "x")) "x").map reprE
      = .ok "(ln(x) + 1) * x ** x" :=
  ⟨rfl, rfl, rfl, rfl, rfl⟩

/-- C7: factor grouping of powers sharing a base, rendered exactly. -/
theorem claim_C7_power_grouping :
    (simplifyE 20 (.Multiply (.Power (.Variable "x") (.Constant (.int (-1))))
      (.Power (.Variable "x") (.Constant (.int 2))))).map reprE = .ok "x" ∧
    (simplifyE 20 (.Multiply
      (.Multiply (.Constant (.int 3)) (.Power (.Variable "x") (.Constant (.int (-1)))))
      (.Power (.Variable "x") (.Constant (.int 2))))).map reprE = .ok "3 * x" :=
  ⟨rfl, rfl⟩

/-- C9 (confirmed, with Python float semantics modelled exactly): constant
folding of division uses true division.  Whenever the two operands of a
Divide simplify to integer Constants with the divisor nonzero and dividing
the dividend, simplify returns exactly what Python true division produces:
the Constant holding the correctly rounded binary64 quotient, or its
OverflowError.  So 4 / 2 renders 2.0, not 2; the reciprocal branch
likewise stores a float, rendering 1 / 2.0; the exact quotient
18014398509481986 / 2 = 9007199254740993 is not representable and folds to
the neighbouring float, rendering 9007199254740992.0; and folding 10^400
over 2 raises OverflowError. -/
theorem claim_C9_division_folds_to_float :
    (∀ (f : Nat) (d q : Expression) (a b : Int),
      simplifyE f d = .ok (.Constant (.int a)) →
      simplifyE f q = .ok (.Constant (.int b)) → b ≠ 0 → b ∣ a →
      simplifyE (f+1) (.Divide d q)
        = (pyDiv (.int a) (.int b)).map (fun v => Expression.Constant v)) ∧
    (simplifyE 5 (.Divide (.Constant (.int 4)) (.Constant (.int 2)))).map reprE
      = .ok "2.0" ∧
    simplifyE 5 (.Divide (.Constant (.int 2)) (.Constant (.int 4)))
      = .ok (.Divide (.Constant (.int 1)) (.Constant (.float (ratI 2)))) ∧
    (simplifyE 5 (.Divide (.Constant (.int 2)) (.Constant (.int 4)))).map reprE
      = .ok "1 / 2.0" ∧
    (simplifyE 5 (.Divide (.Constant (.int 18014398509481986))
        (.Constant (.int 2)))).map reprE
      = .ok "9007199254740992.0" ∧
    simplifyE 5 (.Divide
        (.Constant (.int 10000000000000000000000000000000000000000000000000000000000000000000000000000000000000000000000000000000000000000000000000000000000000000000000000000000000000000000000000000000000000000000000000000000000000000000000000000000000000000000000000000000000000000000000000000000000000000000000000000000000000000000000000000000000000000000000000000000000000000000000000000000000000000000000000000000000000000))
        (.Constant (.int 2)))
      = .error .overflowError := by
  refine ⟨?_, rfl, rfl, rfl, rfl, rfl⟩
  intro f d q a b hd hq hb hdvd
  have h1 : Int.fmod a b = 0 := by
    obtain ⟨k, rfl⟩ := hdvd
    rw [Int.mul_comm]
    exact Int.mul_fmod_left k b
  show (do
      divPost (fun x => simplifyE f x) (← simplifyE f d) (← simplifyE f q)
      : Except Err Expression)
    = (pyDiv (.int a) (.int b)).map (fun v => Expression.Constant v)
  rw [hd, hq, bind_ok, bind_ok]
  unfold divPost
  have hmod : cvMod (.num (.int a)) (.num (.int b)) = .ok (.int 0) := by
    simp [cvMod, pyMod, hb, h1]
  simp only [viewC, hmod, bind_ok]
  simp only [show eqNum (PyNum.int 0) (PyNum.int 0) = true from rfl, if_true]
  simp only [cvDiv]
  cases pyDiv (.int a) (.int b) <;> rfl

/-- C9 witness: the general folding statement applied at 4 / 2, together
with the concrete value of the modelled division there. -/
theorem claim_C9_witness :
    simplifyE 2 (.Constant (.int 4)) = .ok (.Constant (.int 4)) ∧
    simplifyE 2 (.Constant (.int 2)) = .ok (.Constant (.int 2)) ∧
    (2 : Int) ≠ 0 ∧ (2 : Int) ∣ 4 ∧
    simplifyE 3 (.Divide (.Constant (.int 4)) (.Constant (.int 2)))
      = (pyDiv (.int 4) (.int 2)).map (fun v => Expression.Constant v) ∧
    pyDiv (.int 4) (.int 2) = .ok (.float (ratI 2)) :=
  ⟨rfl, rfl, by decide, by decide,
    claim_C9_division_folds_to_float.1 2 (.Constant (.int 4))
      (.Constant (.int 2)) 4 2 rfl rfl (by decide) (by decide), rfl⟩

/-- C10: simplify has no double-negation rule for directly nested Minus
nodes: for a non-Constant value, simplifying Minus(Minus(v)) just
simplifies v underneath the two Minus wrappers, while the two negations
do cancel when they are the two operands of a Multiply or of a Divide. -/
theorem claim_C10_no_double_negation :
    (∀ (f : Nat) (v : Expression), isConstE v = false →
      simplifyE (f+2) (.Minus (.Minus v))
        = (simplifyE f v).map (fun w => .Minus (.Minus w))) ∧
    (simplifyE 5 (.Multiply (.Minus (.Variable "x"))
      (.Minus (.Variable "y")))).map reprE = .ok "x * y" ∧
    (simplifyE 5 (.Divide (.Minus (.Variable "x"))
      (.Minus (.Variable "y")))).map reprE = .ok "x / y" := by
  refine ⟨?_, rfl, rfl⟩
  intro f v hv
  have hmv : ∀ (w : Expression), isConstE (Expression.Minus w) = false :=
    fun w => rfl
  simp only [simplifyE]
  cases hsv : simplifyE f v with
  | error e => simp [hsv, bind_err, Except.map, minusPost, hmv]
  | ok u => simp [hsv, bind_ok, minusPost, hv, hmv, Except.map,
      pure, Except.pure]

/-- C10 witness: the double-Minus equation at the variable x. -/
theorem claim_C10_witness :
    isConstE (.Variable "x") = false ∧
    simplifyE 3 (.Minus (.Minus (.Variable "x")))
      = (simplifyE 1 (.Variable "x")).map (fun w => .Minus (.Minus w)) :=
  ⟨rfl, claim_C10_no_double_negation.1 1 (.Variable "x") rfl⟩

end Symbolic
